import Mathlib

/-!
Verification of the device-side MQTT transport of the golang-iothub
repository, shallowly embedded in Lean 4.

Strings are modelled as `List Char` at the parsing level (the repository
only ever manipulates ASCII topic strings and tokens; one `Char` stands
for one byte).  Byte sequences are `List Nat` with every element < 256.
Machine 32-bit arithmetic is `Nat` with explicit reduction mod 2^32.
Fallible Go functions return `Option` or `Except`; a Go panic (nil map
index, out-of-range slice index, nil interface dereference) is modelled
by a dedicated `none` / `panicked` result.
-/

set_option maxRecDepth 100000

deriving instance DecidableEq for Except

namespace IotHub

/-! ## Decimal formatting and parsing (Go `fmt %d` / `strconv.Atoi`) -/

/-- The character of a decimal digit. -/
def digitChar (d : Nat) : Char := Char.ofNat (48 + d)

/-- Decimal digits of a natural number, most significant first; `fuel`
makes the recursion structural and is always called with enough fuel. -/
def natDigitsGo : Nat → Nat → List Char
  | 0, _ => []
  | fuel + 1, n =>
    if n < 10 then [digitChar n]
    else natDigitsGo fuel (n / 10) ++ [digitChar (n % 10)]

/-- Decimal digits of a natural number, most significant first. -/
def natDigits (n : Nat) : List Char := natDigitsGo (n + 1) n

/-- Rendering of an integer the way Go `fmt.Sprintf("%d", i)` does. -/
def formatInt (i : Int) : List Char :=
  if i < 0 then '-' :: natDigits i.natAbs else natDigits i.natAbs

/-- Numeric value of a decimal digit character, if it is one. -/
def charDigit (c : Char) : Option Nat :=
  if 48 ≤ c.toNat ∧ c.toNat ≤ 57 then some (c.toNat - 48) else none

/-- Accumulating decimal parser over a digit list. -/
def parseNatGo : List Char → Nat → Option Nat
  | [], acc => some acc
  | c :: r, acc =>
    match charDigit c with
    | some d => parseNatGo r (acc * 10 + d)
    | none => none

/-- Parse a nonempty all-digit string as a natural number. -/
def parseNat (l : List Char) : Option Nat :=
  match l with
  | [] => none
  | _ => parseNatGo l 0

/-- Model of Go `strconv.Atoi`: optional sign, then decimal digits.
(The int64 range check is not modelled; every string this development
feeds to `atoi` is the rendering of an in-range integer.) -/
def atoi (l : List Char) : Option Int :=
  match l with
  | [] => none
  | c :: r =>
    if c = '+' then (parseNat r).map Int.ofNat
    else if c = '-' then (parseNat r).map (fun n => -(Int.ofNat n))
    else (parseNat (c :: r)).map Int.ofNat

/-! ## Go `net/url` percent escaping -/

/-- Upper-case hex digit character, as Go percent-encoding emits. -/
def hexUp (n : Nat) : Char := "0123456789ABCDEF".data.getD n '0'

/-- Characters Go `url.QueryEscape` leaves untouched. -/
def isUnreserved (c : Char) : Bool :=
  (65 ≤ c.toNat ∧ c.toNat ≤ 90) ∨ (97 ≤ c.toNat ∧ c.toNat ≤ 122) ∨
  (48 ≤ c.toNat ∧ c.toNat ≤ 57) ∨ c = '-' ∨ c = '_' ∨ c = '.' ∨ c = '~'

/-- Model of Go `url.QueryEscape` on ASCII input: unreserved bytes kept,
space becomes a plus sign, everything else percent-encoded. -/
def queryEscape (l : List Char) : List Char :=
  l.foldr
    (fun c acc =>
      if isUnreserved c then c :: acc
      else if c = ' ' then '+' :: acc
      else '%' :: hexUp (c.toNat / 16) :: hexUp (c.toNat % 16) :: acc)
    []

/-- Numeric value of a hex digit character, if it is one. -/
def hexVal (c : Char) : Option Nat :=
  if 48 ≤ c.toNat ∧ c.toNat ≤ 57 then some (c.toNat - 48)
  else if 97 ≤ c.toNat ∧ c.toNat ≤ 102 then some (c.toNat - 87)
  else if 65 ≤ c.toNat ∧ c.toNat ≤ 70 then some (c.toNat - 55)
  else none

/-- Model of Go `net/url` unescaping: percent triples are decoded and,
in query mode (`plus = true`), a plus sign becomes a space.  Invalid or
truncated percent escapes fail, as in Go. -/
def percentDecode (plus : Bool) : List Char → Option (List Char)
  | [] => some []
  | c :: t =>
    if c = '%' then
      match t with
      | a :: b :: t2 =>
        match hexVal a, hexVal b with
        | some x, some y => (percentDecode plus t2).map (Char.ofNat (16 * x + y) :: ·)
        | _, _ => none
      | _ => none
    else if c = '+' then
      (percentDecode plus t).map ((if plus then ' ' else '+') :: ·)
    else
      (percentDecode plus t).map (c :: ·)

/-- Go `url.QueryUnescape`. -/
def queryUnescape (l : List Char) : Option (List Char) := percentDecode true l

/-- Go path unescaping as done inside `url.Parse` (plus stays plus). -/
def pathUnescape (l : List Char) : Option (List Char) := percentDecode false l

/-! ## Base64 (Go `encoding/base64` standard encoding) -/

/-- The standard base64 alphabet. -/
def b64Alphabet : List Char :=
  "ABCDEFGHIJKLMNOPQRSTUVWXYZabcdefghijklmnopqrstuvwxyz0123456789+/".data

/-- Character for a 6-bit group. -/
def b64Char (n : Nat) : Char := b64Alphabet.getD n 'A'

/-- Standard base64 encoding with padding. -/
def b64Encode : List Nat → List Char
  | [] => []
  | [a] => [b64Char (a / 4), b64Char (a % 4 * 16), '=', '=']
  | [a, b] => [b64Char (a / 4), b64Char (a % 4 * 16 + b / 16), b64Char (b % 16 * 4), '=']
  | a :: b :: c :: t =>
    b64Char (a / 4) :: b64Char (a % 4 * 16 + b / 16) ::
    b64Char (b % 16 * 4 + c / 64) :: b64Char (c % 64) :: b64Encode t

/-- Index of a character in the base64 alphabet. -/
def b64Val (c : Char) : Option Nat := b64Alphabet.findIdx? (· = c)

/-- Standard base64 decoding with padding, as Go
`base64.StdEncoding.DecodeString` accepts it. -/
def b64Decode : List Char → Option (List Nat)
  | [] => some []
  | [a, b, '=', '='] =>
    match b64Val a, b64Val b with
    | some va, some vb => some [va * 4 + vb / 16]
    | _, _ => none
  | [a, b, c, '='] =>
    match b64Val a, b64Val b, b64Val c with
    | some va, some vb, some vc => some [va * 4 + vb / 16, vb % 16 * 16 + vc / 4]
    | _, _, _ => none
  | a :: b :: c :: d :: t =>
    match b64Val a, b64Val b, b64Val c, b64Val d, b64Decode t with
    | some va, some vb, some vc, some vd, some r =>
      some ((va * 4 + vb / 16) :: (vb % 16 * 16 + vc / 4) :: (vc % 4 * 64 + vd) :: r)
    | _, _, _, _, _ => none
  | _ => none

/-! ## SHA-256 and HMAC (Go `crypto/sha256`, `crypto/hmac`) -/

/-- 32-bit modulus. -/
def w32 : Nat := 4294967296

/-- 32-bit addition. -/
def add32 (a b : Nat) : Nat := (a + b) % w32

/-- 32-bit right rotation. -/
def rotr32 (x n : Nat) : Nat := ((x >>> n) ||| (x <<< (32 - n))) % w32

/-- 32-bit complement. -/
def not32 (x : Nat) : Nat := 4294967295 ^^^ x

/-- SHA-256 round constants. -/
def shaK : List Nat :=
  [1116352408, 1899447441, 3049323471, 3921009573, 961987163, 1508970993,
   2453635748, 2870763221, 3624381080, 310598401, 607225278, 1426881987,
   1925078388, 2162078206, 2614888103, 3248222580, 3835390401, 4022224774,
   264347078, 604807628, 770255983, 1249150122, 1555081692, 1996064986,
   2554220882, 2821834349, 2952996808, 3210313671, 3336571891, 3584528711,
   113926993, 338241895, 666307205, 773529912, 1294757372, 1396182291,
   1695183700, 1986661051, 2177026350, 2456956037, 2730485921, 2820302411,
   3259730800, 3345764771, 3516065817, 3600352804, 4094571909, 275423344,
   430227734, 506948616, 659060556, 883997877, 958139571, 1322822218,
   1537002063, 1747873779, 1955562222, 2024104815, 2227730452, 2361852424,
   2428436474, 2756734187, 3204031479, 3329325298]

/-- SHA-256 initial hash state. -/
def shaH0 : List Nat :=
  [1779033703, 3144134277, 1013904242, 2773480762,
   1359893119, 2600822924, 528734635, 1541459225]

/-- Big-endian 32-bit words from bytes. -/
def toWordsBE : List Nat → List Nat
  | b0 :: b1 :: b2 :: b3 :: t => (((b0 * 256 + b1) * 256 + b2) * 256 + b3) :: toWordsBE t
  | _ => []

/-- `count` big-endian bytes of a number, most significant first. -/
def natToBytesBE : Nat → Nat → List Nat
  | 0, _ => []
  | c + 1, n => natToBytesBE c (n / 256) ++ [n % 256]

/-- One message-schedule extension step: appends the next word. -/
def shaExtend (w : List Nat) : List Nat :=
  let n := w.length
  let x15 := w.getD (n - 15) 0
  let x2 := w.getD (n - 2) 0
  let s0 := (rotr32 x15 7) ^^^ (rotr32 x15 18) ^^^ (x15 >>> 3)
  let s1 := (rotr32 x2 17) ^^^ (rotr32 x2 19) ^^^ (x2 >>> 10)
  w ++ [add32 (add32 (w.getD (n - 16) 0) s0) (add32 (w.getD (n - 7) 0) s1)]

/-- Iterate a function. -/
def iterN {α : Type} (f : α → α) : Nat → α → α
  | 0, a => a
  | n + 1, a => iterN f n (f a)

/-- One SHA-256 round over the 8-word working state. -/
def shaRound (st : List Nat) (wk : Nat × Nat) : List Nat :=
  match st with
  | [a, b, c, d, e, f, g, h] =>
    let s1 := (rotr32 e 6) ^^^ (rotr32 e 11) ^^^ (rotr32 e 25)
    let ch := (e &&& f) ^^^ (not32 e &&& g)
    let t1 := add32 (add32 h s1) (add32 ch (add32 wk.2 wk.1))
    let s0 := (rotr32 a 2) ^^^ (rotr32 a 13) ^^^ (rotr32 a 22)
    let mj := (a &&& b) ^^^ (a &&& c) ^^^ (b &&& c)
    let t2 := add32 s0 mj
    [add32 t1 t2, a, b, c, add32 d t1, e, f, g]
  | _ => st

/-- SHA-256 compression of one 64-byte block into the hash state. -/
def shaCompress (h : List Nat) (block : List Nat) : List Nat :=
  let w := iterN shaExtend 48 (toWordsBE block)
  let final := (w.zip shaK).foldl shaRound h
  List.zipWith add32 h final

/-- SHA-256 padding. -/
def shaPad (msg : List Nat) : List Nat :=
  let zeros := (64 + 56 - (msg.length + 1) % 64) % 64
  msg ++ 128 :: List.replicate zeros 0 ++ natToBytesBE 8 (msg.length * 8)

/-- Split into 64-byte blocks; `fuel` keeps the recursion structural. -/
def blocks64 : Nat → List Nat → List (List Nat)
  | 0, _ => []
  | _ + 1, [] => []
  | fuel + 1, l => l.take 64 :: blocks64 fuel (l.drop 64)

/-- The SHA-256 digest (32 bytes) of a byte sequence. -/
def sha256 (msg : List Nat) : List Nat :=
  let p := shaPad msg
  let h := (blocks64 p.length p).foldl shaCompress shaH0
  h.foldr (fun word acc => natToBytesBE 4 word ++ acc) []

/-- HMAC-SHA256 (Go `hmac.New(sha256.New, key)`). -/
def hmacSha256 (key msg : List Nat) : List Nat :=
  let k0 := if 64 < key.length then sha256 key else key
  let k := k0 ++ List.replicate (64 - k0.length) 0
  sha256 (k.map (Nat.xor 92) ++ sha256 (k.map (Nat.xor 54) ++ msg))

/-- The bytes of an ASCII string. -/
def strBytes (s : String) : List Nat := s.data.map Char.toNat

/-! ## Credentials (`credentials/sas.go`) -/

/-- The `Credentials` struct.  The wall clock is irrelevant to everything
proved here, so the injectable test override `now` carries the Unix
timestamp used for signing (`none` models the zero `time.Time`, in which
case `SAS` reads the wall clock, passed explicitly as `wallNow`). -/
structure Credentials where
  hostName : String
  deviceID : String
  sharedAccessKey : String
  sharedAccessKeyName : String
  now : Option Int
deriving Repr, DecidableEq

/-- Go `strings.SplitN(s, "=", 2)`. -/
def splitN2Eq (l : List Char) : List (List Char) :=
  if l.any (fun c => c = '=') then
    [l.takeWhile (· ≠ '='), (l.dropWhile (· ≠ '=')).drop 1]
  else [l]

/-- One chunk of `ParseConnectionString`'s loop: returns `none` when the
Go code would panic (indexing `c[1]` of a one-element split). -/
def applyChunk (m : Credentials) (chunk : List Char) : Option Credentials :=
  let c := splitN2Eq chunk
  if c.headD [] = "HostName".data then
    if c.length < 2 then none else some { m with hostName := String.mk (c.getD 1 []) }
  else if c.headD [] = "DeviceId".data then
    if c.length < 2 then none else some { m with deviceID := String.mk (c.getD 1 []) }
  else if c.headD [] = "SharedAccessKey".data then
    if c.length < 2 then none else some { m with sharedAccessKey := String.mk (c.getD 1 []) }
  else if c.headD [] = "SharedAccessKeyName".data then
    if c.length < 2 then none else some { m with sharedAccessKeyName := String.mk (c.getD 1 []) }
  else some m

/-- Go `strings.Split(s, ";")`. -/
def splitSemi (l : List Char) : List (List Char) :=
  l.foldr
    (fun c acc =>
      if c = ';' then [] :: acc
      else
        match acc with
        | [] => [[c]]
        | h :: t => (c :: h) :: t)
    [[]]

/-- `ParseConnectionString`.  The outer `Option` is `none` exactly when
the Go code panics; otherwise the result mirrors the Go return values. -/
def parseConnectionString (cs : String) : Option (Except String Credentials) :=
  let chunks := splitSemi cs.data
  if chunks.length ≠ 3 ∧ chunks.length ≠ 4 then
    some (Except.error "malformed connection string")
  else
    match chunks.foldlM applyChunk ⟨"", "", "", "", none⟩ with
    | none => none
    | some m => some (Except.ok m)

/-- `Credentials.SAS`: mints the shared-access-signature token. -/
def Credentials.sas (c : Credentials) (wallNow : Int) (durationSecs : Int) :
    Except String String :=
  if c.hostName = "" then Except.error "HostName is blank"
  else if c.sharedAccessKey = "" then Except.error "SharedAccessKey is blank"
  else
    let sr := queryEscape c.hostName.data
    let ts := match c.now with
      | some t => t
      | none => wallNow
    let se := ts + durationSecs
    match b64Decode c.sharedAccessKey.data with
    | none => Except.error "illegal base64 data"
    | some key =>
      let e := sr ++ '\n' :: formatInt se
      let sig := hmacSha256 key (e.map Char.toNat)
      Except.ok (String.mk
        ("SharedAccessSignature sr=".data ++ sr ++
         "&sig=".data ++ queryEscape (b64Encode sig) ++
         "&se=".data ++ queryEscape (formatInt se) ++
         "&skn=".data ++ queryEscape c.sharedAccessKeyName.data))

/-! ## Query-string machinery (Go `net/url`) -/

/-- Split on query separators the way Go `url.ParseQuery` cuts the raw
query: at every ampersand or semicolon.  (Go's loop emits no chunk for
the empty string where this returns `[[]]`; empty chunks are skipped by
the consumer exactly as Go's `if key == "" continue` does, so the two
agree on the parsed result.) -/
def splitChunks : List Char → List (List Char)
  | [] => [[]]
  | c :: t =>
    if c = '&' ∨ c = ';' then [] :: splitChunks t
    else
      match splitChunks t with
      | [] => [[c]]
      | h :: r => (c :: h) :: r

/-- Cut a chunk at its first equals sign into key and value. -/
def cutEq (k : List Char) : List Char × List Char :=
  if k.any (fun c => c = '=') then (k.takeWhile (· ≠ '='), (k.dropWhile (· ≠ '=')).drop 1)
  else (k, [])

/-- Go `url.ParseQuery`, flattened: the key-value pairs in query order
(left to right) and a flag recording whether any chunk failed to
unescape.  Go returns the successfully parsed pairs together with the
first error; `url.URL.Query()` drops the error, `url.ParseQuery` callers
that check it treat the whole query as bad. -/
def parseQueryPairs (l : List Char) : List (List Char × List Char) × Bool :=
  (splitChunks l).foldr
    (fun k acc =>
      if k = [] then acc
      else
        match queryUnescape (cutEq k).1, queryUnescape (cutEq k).2 with
        | some k2, some v2 => ((k2, v2) :: acc.1, acc.2)
        | _, _ => (acc.1, true))
    ([], false)

/-- All values carried by one key, in query order (Go `q[key]`). -/
def valuesGet (k : List Char) (pairs : List (List Char × List Char)) : List (List Char) :=
  pairs.filterMap (fun p => if p.1 = k then some p.2 else none)

/-- A control byte in Go `net/url`'s sense. -/
def isCtl (c : Char) : Bool := c.toNat < 32 ∨ c.toNat = 127

/-- Model of Go `url.Parse` restricted to the reference shapes this
repository feeds it: no scheme and no authority (every parsed topic
starts with a dollar sign or a path segment, so Go never recognizes
either).  Control bytes are rejected, the fragment after the first hash
is dropped, the raw query follows the first question mark, and the path
before it is percent-unescaped; a bad escape fails the parse.  Returns
`(path, rawQuery)`. -/
def urlSplit (s : List Char) : Option (List Char × List Char) :=
  if s.any isCtl then none
  else
    let rest := s.takeWhile (· ≠ '#')
    let rawq := (rest.dropWhile (· ≠ '?')).drop 1
    (pathUnescape (rest.takeWhile (· ≠ '?'))).map (fun p => (p, rawq))

/-- Go `strings.TrimRight(l, "/")`. -/
def trimRightSlash (l : List Char) : List Char :=
  (l.reverse.dropWhile (· = '/')).reverse

/-! ## Direct-method topic codec (`parseDirectMethodTopic`) -/

/-- Failure kinds of `parseDirectMethodTopic`. -/
inductive DmErr where
  | escapeErr
  | parseErr
  | malformedTopic
  | ridUnavailable
  | ridParseErr
deriving Repr, DecidableEq

/-- The direct-method request topic head. -/
def dmHead : List Char := "$iothub/methods/POST/".data

/-- The path-and-query half of `parseDirectMethodTopic`: trim trailing
slashes, check the topic head, read the method from the rest of the
path and the single `$rid` from the query. -/
def dmFromParts (pr : List Char × List Char) : Except DmErr (List Char × Int) :=
  let p := trimRightSlash pr.1
  if dmHead.isPrefixOf p then
    match valuesGet "$rid".data (parseQueryPairs pr.2).1 with
    | [v] =>
      match atoi v with
      | some n => Except.ok (p.drop dmHead.length, n)
      | none => Except.error DmErr.ridParseErr
    | _ => Except.error DmErr.ridUnavailable
  else Except.error DmErr.malformedTopic

/-- The URL-parse step of `parseDirectMethodTopic`. -/
def dmFromUnescaped (s1 : List Char) : Except DmErr (List Char × Int) :=
  match urlSplit s1 with
  | none => Except.error DmErr.parseErr
  | some pr => dmFromParts pr

/-- `parseDirectMethodTopic`: unescape, URL-parse, trim trailing
slashes, check the topic head, read the method from the rest of the
path and the single `$rid` from the query. -/
def parseDirectMethodTopic (s : List Char) : Except DmErr (List Char × Int) :=
  match queryUnescape s with
  | none => Except.error DmErr.escapeErr
  | some s1 => dmFromUnescaped s1

/-- The direct-method request topic for a method name and request id,
as the claimed round-trip law builds it. -/
def encodeMethodTopic (m : List Char) (rid : Int) : List Char :=
  dmHead ++ m ++ '/' :: '?' :: ("$rid=".data ++ formatInt rid)

/-- Method-name characters for which the round-trip law is provable:
printable ASCII that survives query unescaping (no percent, no plus)
and does not cut the URL short (no question mark, no hash). -/
def methodCharOK (c : Char) : Prop :=
  32 ≤ c.toNat ∧ c.toNat ≤ 126 ∧ c ≠ '%' ∧ c ≠ '+' ∧ c ≠ '?' ∧ c ≠ '#'

instance (c : Char) : Decidable (methodCharOK c) := by
  unfold methodCharOK; infer_instance

/-! ## Cloud-to-device topic codec (`parseCloudToDeviceTopic`) -/

/-- Failure kinds of `parseCloudToDeviceTopic`. -/
inductive C2dErr where
  | escapeErr
  | malformedTopic
  | queryErr
  | multiValue
deriving Repr, DecidableEq

/-- The suffix of a string starting at the first occurrence of the two
characters dollar-dot, modelling `s[strings.Index(s, "$.") :]`. -/
def fromDollarDot : List Char → Option (List Char)
  | [] => none
  | '$' :: '.' :: t => some ('$' :: '.' :: t)
  | _ :: t => fromDollarDot t

/-- The query half of `parseCloudToDeviceTopic`: parse a query string
(errors propagate) and require exactly one value per key. -/
def c2dFromQuery (q : List Char) : Except C2dErr (List (List Char × List Char)) :=
  if (parseQueryPairs q).2 then Except.error C2dErr.queryErr
  else if (parseQueryPairs q).1.all
      (fun p => (valuesGet p.1 (parseQueryPairs q).1).length = 1) then
    Except.ok (parseQueryPairs q).1
  else Except.error C2dErr.multiValue

/-- The dollar-dot location step of `parseCloudToDeviceTopic`. -/
def c2dFromUnescaped (u : List Char) : Except C2dErr (List (List Char × List Char)) :=
  match fromDollarDot u with
  | none => Except.error C2dErr.malformedTopic
  | some q => c2dFromQuery q

/-- `parseCloudToDeviceTopic`: unescape the whole topic, find the first
dollar-dot, parse a query string from there on (errors propagate), and
require exactly one value per key. -/
def parseCloudToDeviceTopic (s : List Char) :
    Except C2dErr (List (List Char × List Char)) :=
  match queryUnescape s with
  | none => Except.error C2dErr.escapeErr
  | some u => c2dFromUnescaped u

/-! ## `url.Values` and its encoder (for the telemetry topic) -/

/-- `url.Values`: keys with their value lists.  Go's is a map; here the
association list carries distinct keys and `valSet` models `u[k] = vs`. -/
abbrev Values : Type := List (List Char × List (List Char))

/-- Map assignment `u[k] = vs`. -/
def valSet (u : Values) (k : List Char) (vs : List (List Char)) : Values :=
  if (List.any u (fun p => p.1 = k)) then
    List.map (fun p => if p.1 = k then (k, vs) else p) u
  else List.append u [(k, vs)]

/-- Go byte-wise string order, as `sort.Strings` uses. -/
def leChars : List Char → List Char → Bool
  | [], _ => true
  | _ :: _, [] => false
  | a :: as, b :: bs =>
    if a.toNat < b.toNat then true
    else if b.toNat < a.toNat then false
    else leChars as bs

/-- Insert into a sorted list (ascending under `le`). -/
def insertLe {α : Type} (le : α → α → Bool) (a : α) : List α → List α
  | [] => [a]
  | b :: t => if le a b then a :: b :: t else b :: insertLe le a t

/-- Insertion sort, ascending under `le`. -/
def sortLe {α : Type} (le : α → α → Bool) : List α → List α
  | [] => []
  | a :: t => insertLe le a (sortLe le t)

/-- `url.Values.Encode`: keys sorted byte-wise, every value emitted as
an escaped key, an equals sign and the escaped value, joined by
ampersands. -/
def valuesEncode (u : Values) : List Char :=
  List.intercalate "&".data
    ((sortLe (fun p q => leChars p.1 q.1) u).flatMap
      (fun p => p.2.map (fun v => queryEscape p.1 ++ '=' :: queryEscape v)))

/-! ## The transport (`iotdevice/transport/mqtt`) -/

/-- A parsed twin response: status code, payload, optional version. -/
structure RespMsg where
  code : Int
  body : List Nat
  ver : Int
deriving Repr, DecidableEq

/-- Transport error kinds. -/
inductive TErr where
  | notConnected
  | alreadyConnected
  | requestFailed (code : Int)
  | timedOut
  | cancelled
  | netErr
deriving Repr, DecidableEq

/-- The mutable fields of `Transport` that the claims are about.
`conn` is `none` before a successful connect (a nil `mqtt.Client`
interface); `some b` holds the client's `IsConnected()` state.
`resp` is `none` until the twin-response subscription installs the
registry map; `some rids` holds the keys of the registry. -/
structure TransportState where
  conn : Option Bool
  did : String
  rid : Nat
  done : Bool
  resp : Option (List Nat)
deriving Repr, DecidableEq

/-- `New()`: nil connection, zero rid, open done channel, nil registry. -/
def initialTransport : TransportState :=
  { conn := none, did := "", rid := 0, done := false, resp := none }

/-- Result of an operation: a value, a Go error, or a Go runtime panic
(nil interface dereference). -/
inductive ROut (α : Type) where
  | ok (a : α)
  | err (e : TErr)
  | panicked
deriving Repr, DecidableEq

/-- What `tr.send` hands to the MQTT client on success. -/
inductive PubResult where
  | err (e : TErr)
  | published (topic : List Char) (qos : Int) (payload : List Nat)
deriving Repr, DecidableEq

/-- The transport's default quality of service. -/
def defaultQoS : Int := 1

/-- `tr.send`: fails with the not-connected error when the connection
handle is nil; otherwise calls `conn.Publish(topic, defaultQoS, false, b)`
— the source passes the constant `defaultQoS`, not its `qos` argument. -/
def sendLow (st : TransportState) (topic : List Char) (qos : Int)
    (payload : List Nat) : PubResult :=
  match st.conn with
  | none => PubResult.err TErr.notConnected
  | some _ => PubResult.published topic defaultQoS payload

/-- A telemetry message (`common.Message` plus its transport options).
`expiryTime` carries the RFC 3339 UTC rendering of a set, non-zero
expiry (`none` for a nil or zero time), and `qosOption` the integer
under the `qos` transport option key. -/
structure Message where
  payload : List Nat
  messageID : String
  correlationID : String
  userID : String
  toAddr : String
  expiryTime : Option String
  properties : List (String × String)
  qosOption : Option Int
deriving Repr, DecidableEq

/-- The `url.Values` after `Send`'s five conditional system-property
assignments (the first half of its body). -/
def sysValues (m : Message) : Values :=
  let u0 : Values := []
  let u1 := if m.messageID ≠ "" then valSet u0 "$.mid".data [m.messageID.data] else u0
  let u2 := if m.correlationID ≠ "" then valSet u1 "$.cid".data [m.correlationID.data] else u1
  let u3 := if m.userID ≠ "" then valSet u2 "$.uid".data [m.userID.data] else u2
  let u4 := if m.toAddr ≠ "" then valSet u3 "$.to".data [m.toAddr.data] else u3
  match m.expiryTime with
  | some e => valSet u4 "$.exp".data [e.data]
  | none => u4

/-- The `url.Values` built by `Send`: system properties only when
non-empty, then every user property. -/
def sendValues (m : Message) : Values :=
  m.properties.foldl (fun u kv => valSet u kv.1.data [kv.2.data]) (sysValues m)

/-- The telemetry publish topic `Send` builds. -/
def sendTopic (did : String) (m : Message) : List Char :=
  "devices/".data ++ did.data ++ "/messages/events/".data ++ valuesEncode (sendValues m)

/-- The qos `Send` computes from the transport options (default 1). -/
def sendComputedQoS (m : Message) : Int :=
  match m.qosOption with
  | some q => q
  | none => defaultQoS

/-- `Send`: build topic and qos, then hand off to `tr.send`. -/
def transportSend (st : TransportState) (m : Message) : PubResult :=
  sendLow st (sendTopic st.did m) (sendComputedQoS m) m.payload

/-- `Close`: one-shot done latch; disconnects the MQTT client when one
is present and connected, but never clears the `conn` field. -/
def closeTransport (st : TransportState) : TransportState :=
  if st.done then st
  else { st with done := true, conn := st.conn.map (fun _ => false) }

/-- The wait arm of `request` once the reply is delivered: the source
tests `r.code < 200 && r.code > 299`. -/
def requestWait (r : RespMsg) : Except TErr RespMsg :=
  if r.code < 200 ∧ r.code > 299 then Except.error (TErr.requestFailed r.code)
  else Except.ok r

/-- How the blocking wait in `request` resolves. -/
inductive WaitOutcome where
  | reply (r : RespMsg)
  | timeout
  | cancel
deriving Repr, DecidableEq

/-- `enableTwinResponses`: latched on `resp`; subscribing dereferences
the connection handle (panic when nil); on success installs the empty
registry.  `subErr` is the MQTT subscribe token error, if any. -/
def enableTwinResponses (st : TransportState) (subErr : Option TErr) :
    ROut TransportState :=
  if st.resp.isSome then ROut.ok st
  else
    match st.conn with
    | none => ROut.panicked
    | some _ =>
      match subErr with
      | some e => ROut.err e
      | none => ROut.ok { st with resp := some [] }

/-- Registry keys of a transport state. -/
def registered (st : TransportState) : List Nat := st.resp.getD []

/-- Map insert of a registry key. -/
def regInsert (l : List Nat) (rid : Nat) : List Nat :=
  if l.contains rid then l else rid :: l

/-- Map delete of a registry key. -/
def regRemove (l : List Nat) (rid : Nat) : List Nat := l.filter (· ≠ rid)

/-- The request id `request` allocates next (32-bit increment). -/
def nextRid (st : TransportState) : Nat := (st.rid + 1) % w32

/-- The value `request` returns once its slot is registered: the
publish token error if publishing failed, otherwise the resolution of
the select over the reply channel, the 30-second timer and the caller's
cancellation. -/
def requestResult (pubErr : Option TErr) (out : WaitOutcome) : ROut RespMsg :=
  match pubErr with
  | some e => ROut.err e
  | none =>
    match out with
    | WaitOutcome.reply r =>
      match requestWait r with
      | Except.ok v => ROut.ok v
      | Except.error e => ROut.err e
    | WaitOutcome.timeout => ROut.err TErr.timedOut
    | WaitOutcome.cancel => ROut.err TErr.cancelled

/-- `request`: enable twin responses, allocate a rid, register its
slot, publish, and wait.  The deferred registry delete runs on every
path that returns after the slot was inserted — publish error, reply,
timeout and cancellation — so the final registry is the same on all
four, and only the returned value depends on the outcome.
`subErr`/`pubErr` are the token errors of the subscribe and publish
calls, `out` is how the select resolves. -/
def request (st : TransportState) (subErr pubErr : Option TErr)
    (out : WaitOutcome) : ROut RespMsg × TransportState :=
  match enableTwinResponses st subErr with
  | ROut.panicked => (ROut.panicked, st)
  | ROut.err e => (ROut.err e, st)
  | ROut.ok st1 =>
    let rid := nextRid st1
    let st2 := { st1 with rid := rid, resp := some (regInsert (registered st1) rid) }
    let stFin := { st2 with resp := some (regRemove (registered st2) rid) }
    (requestResult pubErr out, stFin)

/-- `RetrieveTwinProperties`: a `request` returning the reply body. -/
def retrieveTwinProperties (st : TransportState) (subErr pubErr : Option TErr)
    (out : WaitOutcome) : ROut (List Nat) × TransportState :=
  match request st subErr pubErr out with
  | (ROut.ok r, st2) => (ROut.ok r.body, st2)
  | (ROut.err e, st2) => (ROut.err e, st2)
  | (ROut.panicked, st2) => (ROut.panicked, st2)

/-- `UpdateTwinProperties`: a `request` returning the reply version. -/
def updateTwinProperties (st : TransportState) (patch : List Nat)
    (subErr pubErr : Option TErr) (out : WaitOutcome) :
    ROut Int × TransportState :=
  match patch, request st subErr pubErr out with
  | _, (ROut.ok r, st2) => (ROut.ok r.ver, st2)
  | _, (ROut.err e, st2) => (ROut.err e, st2)
  | _, (ROut.panicked, st2) => (ROut.panicked, st2)

/-- `SubscribeEvents`: dereferences `tr.conn` with no nil check. -/
def subscribeEvents (st : TransportState) (tokErr : Option TErr) : ROut Unit :=
  match st.conn with
  | none => ROut.panicked
  | some _ =>
    match tokErr with
    | some e => ROut.err e
    | none => ROut.ok ()

/-- `SubscribeTwinUpdates`: dereferences `tr.conn` with no nil check. -/
def subscribeTwinUpdates (st : TransportState) (tokErr : Option TErr) : ROut Unit :=
  match st.conn with
  | none => ROut.panicked
  | some _ =>
    match tokErr with
    | some e => ROut.err e
    | none => ROut.ok ()

/-- `RegisterDirectMethods`: dereferences `tr.conn` with no nil check. -/
def registerDirectMethods (st : TransportState) (tokErr : Option TErr) : ROut Unit :=
  match st.conn with
  | none => ROut.panicked
  | some _ =>
    match tokErr with
    | some e => ROut.err e
    | none => ROut.ok ()

/-- The telemetry values as the original claim reads them: every key
with an empty value omitted, user properties included.  (Rendering of
the claim's words, for comparison with `sendValues`.) -/
def sendValuesClaim (m : Message) : Values :=
  (m.properties.filter (fun kv => kv.2 ≠ "")).foldl
    (fun u kv => valSet u kv.1.data [kv.2.data]) (sysValues m)

/-- The telemetry topic as the original claim predicts it. -/
def sendTopicClaim (did : String) (m : Message) : List Char :=
  "devices/".data ++ did.data ++ "/messages/events/".data ++ valuesEncode (sendValuesClaim m)

/-- The non-empty system-property pairs of a message, in the order the
source sets them. -/
def sysPairs (m : Message) : Values :=
  (if m.messageID ≠ "" then [("$.mid".data, [m.messageID.data])] else []) ++
  (if m.correlationID ≠ "" then [("$.cid".data, [m.correlationID.data])] else []) ++
  (if m.userID ≠ "" then [("$.uid".data, [m.userID.data])] else []) ++
  (if m.toAddr ≠ "" then [("$.to".data, [m.toAddr.data])] else []) ++
  (match m.expiryTime with
   | some e => [("$.exp".data, [e.data])]
   | none => [])

/-- The five reserved system-property keys. -/
def sysKeys : List String := ["$.mid", "$.cid", "$.uid", "$.to", "$.exp"]

/-! ## Supporting lemmas: characters and decimal round-trips -/

theorem toNat_ofNat_valid (n : Nat) (h : n.isValidChar) : (Char.ofNat n).toNat = n := by
  unfold Char.ofNat
  rw [dif_pos h]
  rfl

theorem toNat_ofNat_small (n : Nat) (h : n < 55296) : (Char.ofNat n).toNat = n :=
  toNat_ofNat_valid n (Or.inl h)

theorem ne_of_toNat_ne {c d : Char} (h : c.toNat ≠ d.toNat) : c ≠ d :=
  fun he => h (congrArg Char.toNat he)

theorem charDigit_digitChar (d : Nat) (h : d < 10) : charDigit (digitChar d) = some d := by
  unfold charDigit digitChar
  rw [toNat_ofNat_small (48 + d) (by omega)]
  rw [if_pos (by omega)]
  congr 1
  omega

theorem parseNatGo_append (l : List Char) (c : Char) :
    ∀ acc : Nat, parseNatGo (l ++ [c]) acc =
      (parseNatGo l acc).bind (fun v => (charDigit c).map (fun d => v * 10 + d)) := by
  induction l with
  | nil =>
    intro acc
    cases h : charDigit c <;> simp [parseNatGo, h]
  | cons c2 r ih =>
    intro acc
    simp only [List.cons_append, parseNatGo]
    cases charDigit c2 with
    | none => rfl
    | some d => exact ih _

theorem parseNatGo_natDigitsGo :
    ∀ fuel n acc : Nat, n < fuel →
      parseNatGo (natDigitsGo fuel n) acc =
        some (acc * 10 ^ (natDigitsGo fuel n).length + n) := by
  intro fuel
  induction fuel with
  | zero => intro n acc h; omega
  | succ f ih =>
    intro n acc h
    by_cases h10 : n < 10
    · simp [natDigitsGo, h10, parseNatGo, charDigit_digitChar n h10]
    · have hn0 : 0 < n := by omega
      have hdiv : n / 10 < f := by
        have h1 : n / 10 < n := Nat.div_lt_self hn0 (by norm_num)
        omega
      have hcd := charDigit_digitChar (n % 10) (Nat.mod_lt n (by norm_num))
      simp only [natDigitsGo, if_neg h10]
      rw [parseNatGo_append, ih (n / 10) acc hdiv, hcd]
      show some ((acc * 10 ^ (natDigitsGo f (n / 10)).length + n / 10) * 10 + n % 10) =
        some (acc * 10 ^ (natDigitsGo f (n / 10) ++ [digitChar (n % 10)]).length + n)
      congr 1
      simp only [List.length_append, List.length_cons, List.length_nil, Nat.zero_add]
      have hmod := Nat.div_add_mod n 10
      calc (acc * 10 ^ (natDigitsGo f (n / 10)).length + n / 10) * 10 + n % 10
          = acc * (10 ^ (natDigitsGo f (n / 10)).length * 10) + (10 * (n / 10) + n % 10) := by
            ring
        _ = acc * 10 ^ ((natDigitsGo f (n / 10)).length + 1) + n := by
            rw [← pow_succ, hmod]

theorem natDigitsGo_ne_nil (fuel n : Nat) (h : 0 < fuel) : natDigitsGo fuel n ≠ [] := by
  cases fuel with
  | zero => omega
  | succ f =>
    unfold natDigitsGo
    by_cases h10 : n < 10 <;> simp [h10]

theorem parseNat_natDigits (n : Nat) : parseNat (natDigits n) = some n := by
  have h := parseNatGo_natDigitsGo (n + 1) n 0 (Nat.lt_succ_self n)
  have hne : natDigitsGo (n + 1) n ≠ [] := natDigitsGo_ne_nil (n + 1) n (Nat.succ_pos n)
  unfold parseNat natDigits
  cases hD : natDigitsGo (n + 1) n with
  | nil => exact absurd hD hne
  | cons a t =>
    rw [hD] at h
    simpa using h

theorem natDigitsGo_chars :
    ∀ fuel n : Nat, ∀ c ∈ natDigitsGo fuel n, 48 ≤ c.toNat ∧ c.toNat ≤ 57 := by
  intro fuel
  induction fuel with
  | zero => intro n c hc; simp [natDigitsGo] at hc
  | succ f ih =>
    intro n c hc
    unfold natDigitsGo at hc
    by_cases h10 : n < 10
    · rw [if_pos h10] at hc
      simp at hc
      subst hc
      unfold digitChar
      rw [toNat_ofNat_small (48 + n) (by omega)]
      omega
    · rw [if_neg h10] at hc
      rcases List.mem_append.mp hc with hm | hm
      · exact ih (n / 10) c hm
      · simp at hm
        subst hm
        unfold digitChar
        have := Nat.mod_lt n (show 0 < 10 by norm_num)
        rw [toNat_ofNat_small (48 + n % 10) (by omega)]
        omega

theorem formatInt_chars (i : Int) :
    ∀ c ∈ formatInt i, c = '-' ∨ (48 ≤ c.toNat ∧ c.toNat ≤ 57) := by
  intro c hc
  unfold formatInt at hc
  by_cases hneg : i < 0
  · rw [if_pos hneg] at hc
    rcases List.mem_cons.mp hc with h | h
    · exact Or.inl h
    · exact Or.inr (natDigitsGo_chars _ _ c h)
  · rw [if_neg hneg] at hc
    exact Or.inr (natDigitsGo_chars _ _ c hc)

theorem atoi_cons (c : Char) (r : List Char) :
    atoi (c :: r) =
      if c = '+' then (parseNat r).map Int.ofNat
      else if c = '-' then (parseNat r).map (fun n => -(Int.ofNat n))
      else (parseNat (c :: r)).map Int.ofNat := rfl

theorem atoi_formatInt (i : Int) : atoi (formatInt i) = some i := by
  by_cases hneg : i < 0
  · unfold formatInt
    rw [if_pos hneg]
    rw [atoi_cons]
    rw [if_neg (by decide), if_pos rfl]
    rw [parseNat_natDigits]
    show some (-(i.natAbs : Int)) = some i
    congr 1
    omega
  · have hD : formatInt i = natDigits i.natAbs := by
      unfold formatInt
      rw [if_neg hneg]
    rw [hD]
    have hne : natDigits i.natAbs ≠ [] := natDigitsGo_ne_nil _ _ (Nat.succ_pos _)
    cases hC : natDigits i.natAbs with
    | nil => exact absurd hC hne
    | cons c t =>
      have hcd : 48 ≤ c.toNat ∧ c.toNat ≤ 57 := by
        apply natDigitsGo_chars (i.natAbs + 1) i.natAbs c
        rw [show natDigitsGo (i.natAbs + 1) i.natAbs = natDigits i.natAbs from rfl, hC]
        exact List.mem_cons_self c t
      have h1 : c ≠ '+' := by
        apply ne_of_toNat_ne
        have : ('+').toNat = 43 := by decide
        omega
      have h2 : c ≠ '-' := by
        apply ne_of_toNat_ne
        have : ('-').toNat = 45 := by decide
        omega
      rw [atoi_cons]
      rw [if_neg h1, if_neg h2, ← hC, parseNat_natDigits]
      show some ((i.natAbs : Int)) = some i
      congr 1
      omega

/-! ## Supporting lemmas: unescaping and query splitting -/

theorem percentDecode_self (b : Bool) :
    ∀ l : List Char, (∀ c ∈ l, c ≠ '%' ∧ c ≠ '+') → percentDecode b l = some l := by
  intro l
  induction l with
  | nil => intro _; rfl
  | cons c t ih =>
    intro h
    have hc := h c (List.mem_cons_self c t)
    have ht := ih (fun x hx => h x (List.mem_cons_of_mem c hx))
    rw [percentDecode.eq_def]
    simp only [if_neg hc.1, if_neg hc.2, ht]
    rfl

theorem takeWhile_append_sat {α : Type} (p : α → Bool) :
    ∀ l₁ l₂ : List α, (∀ a ∈ l₁, p a = true) →
      (l₁ ++ l₂).takeWhile p = l₁ ++ l₂.takeWhile p := by
  intro l₁
  induction l₁ with
  | nil => intro l₂ _; rfl
  | cons a t ih =>
    intro l₂ h
    simp only [List.cons_append, List.takeWhile_cons, h a (List.mem_cons_self a t), if_true]
    rw [ih l₂ (fun x hx => h x (List.mem_cons_of_mem a hx))]

theorem dropWhile_append_sat {α : Type} (p : α → Bool) :
    ∀ l₁ l₂ : List α, (∀ a ∈ l₁, p a = true) →
      (l₁ ++ l₂).dropWhile p = l₂.dropWhile p := by
  intro l₁
  induction l₁ with
  | nil => intro l₂ _; rfl
  | cons a t ih =>
    intro l₂ h
    simp only [List.cons_append, List.dropWhile_cons, h a (List.mem_cons_self a t), if_true]
    exact ih l₂ (fun x hx => h x (List.mem_cons_of_mem a hx))

theorem takeWhile_all {α : Type} (p : α → Bool) (l : List α)
    (h : ∀ a ∈ l, p a = true) : l.takeWhile p = l := by
  have := takeWhile_append_sat p l [] h
  simpa using this

theorem splitChunks_nosep :
    ∀ l : List Char, (∀ c ∈ l, ¬(c = '&' ∨ c = ';')) → splitChunks l = [l] := by
  intro l
  induction l with
  | nil => intro _; rfl
  | cons c t ih =>
    intro h
    have hc := h c (List.mem_cons_self c t)
    simp only [splitChunks, if_neg hc]
    rw [ih (fun x hx => h x (List.mem_cons_of_mem c hx))]

theorem cutEq_append (k ds : List Char) (hk : ∀ c ∈ k, c ≠ '=') :
    cutEq (k ++ '=' :: ds) = (k, ds) := by
  unfold cutEq
  rw [if_pos]
  · have ht : (k ++ '=' :: ds).takeWhile (fun c => decide (c ≠ '=')) = k := by
      rw [takeWhile_append_sat _ k ('=' :: ds) (fun a ha => decide_eq_true (hk a ha))]
      simp [List.takeWhile_cons]
    have hd : (k ++ '=' :: ds).dropWhile (fun c => decide (c ≠ '=')) = '=' :: ds := by
      rw [dropWhile_append_sat _ k ('=' :: ds) (fun a ha => decide_eq_true (hk a ha))]
      simp [List.dropWhile_cons]
    rw [ht, hd]
    rfl
  · rw [List.any_eq_true]
    exact ⟨'=', by simp⟩

theorem parseQueryPairs_one (k ds : List Char)
    (hk : ∀ c ∈ k, ¬(c = '&' ∨ c = ';') ∧ c ≠ '=' ∧ c ≠ '%' ∧ c ≠ '+')
    (hds : ∀ c ∈ ds, ¬(c = '&' ∨ c = ';') ∧ c ≠ '%' ∧ c ≠ '+')
    (hkne : k ≠ []) :
    parseQueryPairs (k ++ '=' :: ds) = ([(k, ds)], false) := by
  unfold parseQueryPairs
  rw [splitChunks_nosep (k ++ '=' :: ds) ?hsep]
  case hsep =>
    intro c hc
    rcases List.mem_append.mp hc with h | h
    · exact (hk c h).1
    · rcases List.mem_cons.mp h with rfl | h
      · decide
      · exact (hds c h).1
  simp only [List.foldr_cons, List.foldr_nil]
  rw [if_neg (by simp [hkne] : ¬(k ++ '=' :: ds = []))]
  rw [cutEq_append k ds (fun c hc => (hk c hc).2.1)]
  rw [show queryUnescape k = some k from
    percentDecode_self true k (fun c hc => ⟨(hk c hc).2.2.1, (hk c hc).2.2.2⟩)]
  rw [show queryUnescape ds = some ds from
    percentDecode_self true ds (fun c hc => ⟨(hds c hc).2.1, (hds c hc).2.2⟩)]

theorem trimRightSlash_append (pre m : List Char) (hne : m ≠ [])
    (hlast : m.getLast? ≠ some '/') :
    trimRightSlash (pre ++ m ++ ['/']) = pre ++ m := by
  unfold trimRightSlash
  cases hr : m.reverse with
  | nil =>
    rw [List.reverse_eq_nil_iff] at hr
    exact absurd hr hne
  | cons c t =>
    have hc : m.getLast? = some c := by rw [← List.head?_reverse, hr]; rfl
    have hcne : c ≠ '/' := by
      intro h
      rw [h] at hc
      exact hlast hc
    have hm : m = t.reverse ++ [c] := by
      have h2 := congrArg List.reverse hr
      simpa using h2
    have hrev : (pre ++ m ++ ['/']).reverse = '/' :: c :: (t ++ pre.reverse) := by
      simp [List.reverse_append, hr]
    rw [hrev]
    rw [List.dropWhile_cons, if_pos (by simp)]
    rw [List.dropWhile_cons, if_neg (by simp [hcne])]
    rw [hm]
    simp

/-! ## Supporting lemmas: the direct-method round-trip (C7) -/

theorem dmHead_class :
    ∀ c ∈ dmHead, 32 ≤ c.toNat ∧ c.toNat ≤ 126 ∧ c ≠ '%' ∧ c ≠ '+' ∧ c ≠ '?' ∧
      c ≠ '#' ∧ c ≠ '&' ∧ c ≠ ';' := by
  decide

theorem ridKey_class :
    ∀ c ∈ "$rid=".data, 32 ≤ c.toNat ∧ c.toNat ≤ 126 ∧ c ≠ '%' ∧ c ≠ '+' ∧ c ≠ '?' ∧
      c ≠ '#' ∧ c ≠ '&' ∧ c ≠ ';' := by
  decide

theorem formatInt_class (i : Int) :
    ∀ c ∈ formatInt i, 32 ≤ c.toNat ∧ c.toNat ≤ 126 ∧ c ≠ '%' ∧ c ≠ '+' ∧ c ≠ '?' ∧
      c ≠ '#' ∧ c ≠ '&' ∧ c ≠ ';' ∧ c ≠ '=' := by
  intro c hc
  rcases formatInt_chars i c hc with rfl | hd
  · exact ⟨by decide, by decide, by decide, by decide, by decide, by decide, by decide,
      by decide, by decide⟩
  · have h37 : ('%').toNat = 37 := by decide
    have h43 : ('+').toNat = 43 := by decide
    have h63 : ('?').toNat = 63 := by decide
    have h35 : ('#').toNat = 35 := by decide
    have h38 : ('&').toNat = 38 := by decide
    have h59 : (';').toNat = 59 := by decide
    have h61 : ('=').toNat = 61 := by decide
    exact ⟨by omega, by omega, ne_of_toNat_ne (by omega), ne_of_toNat_ne (by omega),
      ne_of_toNat_ne (by omega), ne_of_toNat_ne (by omega), ne_of_toNat_ne (by omega),
      ne_of_toNat_ne (by omega), ne_of_toNat_ne (by omega)⟩

theorem isCtl_false_of_range {c : Char} (h1 : 32 ≤ c.toNat) (h2 : c.toNat ≤ 126) :
    isCtl c = false := by
  unfold isCtl
  apply decide_eq_false
  omega

theorem encode_mem_cases (m : List Char) (rid : Int) (c : Char)
    (hc : c ∈ encodeMethodTopic m rid) :
    c ∈ dmHead ∨ c ∈ m ∨ c = '/' ∨ c = '?' ∨ c ∈ "$rid=".data ∨ c ∈ formatInt rid := by
  unfold encodeMethodTopic at hc
  rcases List.mem_append.mp hc with h | h
  · rcases List.mem_append.mp h with h2 | h2
    · exact Or.inl h2
    · exact Or.inr (Or.inl h2)
  · rcases List.mem_cons.mp h with h2 | h2
    · exact Or.inr (Or.inr (Or.inl h2))
    · rcases List.mem_cons.mp h2 with h3 | h3
      · exact Or.inr (Or.inr (Or.inr (Or.inl h3)))
      · rcases List.mem_append.mp h3 with h4 | h4
        · exact Or.inr (Or.inr (Or.inr (Or.inr (Or.inl h4))))
        · exact Or.inr (Or.inr (Or.inr (Or.inr (Or.inr h4))))

/-- The round-trip law for the direct-method topic, on the method names
for which it holds: non-empty, made of printable ASCII free of the four
characters the codec does not preserve, and not ending in a slash. -/
theorem spec_c7_method_roundtrip (m : List Char) (rid : Int) (hne : m ≠ [])
    (hch : ∀ c ∈ m, methodCharOK c) (hlast : m.getLast? ≠ some '/') :
    parseDirectMethodTopic (encodeMethodTopic m rid) = Except.ok (m, rid) := by
  have hqu : queryUnescape (encodeMethodTopic m rid) = some (encodeMethodTopic m rid) := by
    apply percentDecode_self
    intro c hc
    rcases encode_mem_cases m rid c hc with h | h | h | h | h | h
    · exact ⟨(dmHead_class c h).2.2.1, (dmHead_class c h).2.2.2.1⟩
    · rcases hch c h with ⟨_, _, h3, h4, _, _⟩; exact ⟨h3, h4⟩
    · subst h; exact ⟨by decide, by decide⟩
    · subst h; exact ⟨by decide, by decide⟩
    · exact ⟨(ridKey_class c h).2.2.1, (ridKey_class c h).2.2.2.1⟩
    · rcases formatInt_class rid c h with ⟨_, _, h3, h4, _⟩; exact ⟨h3, h4⟩
  have hctl : (encodeMethodTopic m rid).any isCtl = false := by
    rw [List.any_eq_false]
    intro c hc
    have hb : 32 ≤ c.toNat ∧ c.toNat ≤ 126 := by
      rcases encode_mem_cases m rid c hc with h | h | h | h | h | h
      · exact ⟨(dmHead_class c h).1, (dmHead_class c h).2.1⟩
      · rcases hch c h with ⟨h1, h2, _⟩; exact ⟨h1, h2⟩
      · subst h; exact ⟨by decide, by decide⟩
      · subst h; exact ⟨by decide, by decide⟩
      · exact ⟨(ridKey_class c h).1, (ridKey_class c h).2.1⟩
      · rcases formatInt_class rid c h with ⟨h1, h2, _⟩; exact ⟨h1, h2⟩
    simp [isCtl_false_of_range hb.1 hb.2]
  have hnohash : ∀ c ∈ encodeMethodTopic m rid, (decide (c ≠ '#')) = true := by
    intro c hc
    apply decide_eq_true
    rcases encode_mem_cases m rid c hc with h | h | h | h | h | h
    · exact (dmHead_class c h).2.2.2.2.2.1
    · exact (hch c h).2.2.2.2.2
    · subst h; decide
    · subst h; decide
    · exact (ridKey_class c h).2.2.2.2.2.1
    · exact (formatInt_class rid c h).2.2.2.2.2.1
  have hpathsat : ∀ a ∈ dmHead ++ m ++ ['/'], (decide (a ≠ '?')) = true := by
    intro a ha
    apply decide_eq_true
    rcases List.mem_append.mp ha with h | h
    · rcases List.mem_append.mp h with h2 | h2
      · exact (dmHead_class a h2).2.2.2.2.1
      · exact (hch a h2).2.2.2.2.1
    · simp at h
      subst h
      decide
  have hassoc : encodeMethodTopic m rid =
      (dmHead ++ m ++ ['/']) ++ '?' :: ("$rid=".data ++ formatInt rid) := by
    simp [encodeMethodTopic]
  have hsplit : urlSplit (encodeMethodTopic m rid) =
      some (dmHead ++ m ++ ['/'], "$rid=".data ++ formatInt rid) := by
    unfold urlSplit
    rw [hctl]
    simp only [Bool.false_eq_true, if_false]
    rw [takeWhile_all _ _ hnohash]
    rw [hassoc]
    rw [takeWhile_append_sat _ _ _ hpathsat]
    rw [dropWhile_append_sat _ _ _ hpathsat]
    rw [List.takeWhile_cons, if_neg (by simp)]
    rw [List.dropWhile_cons, if_neg (by simp)]
    rw [show pathUnescape (dmHead ++ m ++ ['/'] ++ []) = some (dmHead ++ m ++ ['/'] ++ []) from
      percentDecode_self false _ ?nopct]
    case nopct =>
      intro c hc
      simp only [List.append_nil] at hc
      rcases List.mem_append.mp hc with h | h
      · rcases List.mem_append.mp h with h2 | h2
        · exact ⟨(dmHead_class c h2).2.2.1, (dmHead_class c h2).2.2.2.1⟩
        · rcases hch c h2 with ⟨_, _, h3, h4, _⟩; exact ⟨h3, h4⟩
      · simp at h
        subst h
        exact ⟨by decide, by decide⟩
    simp
  have htrim : trimRightSlash (dmHead ++ m ++ ['/']) = dmHead ++ m :=
    trimRightSlash_append dmHead m hne hlast
  have hpre : dmHead.isPrefixOf (dmHead ++ m) = true := by
    rw [List.isPrefixOf_iff_prefix]
    exact List.prefix_append dmHead m
  have hdrop : (dmHead ++ m).drop dmHead.length = m := List.drop_left dmHead m
  have hpq : parseQueryPairs ("$rid=".data ++ formatInt rid) =
      ([("$rid".data, formatInt rid)], false) := by
    have hq : "$rid=".data ++ formatInt rid = "$rid".data ++ '=' :: formatInt rid := rfl
    rw [hq]
    refine parseQueryPairs_one "$rid".data (formatInt rid) ?hk ?hds (by decide)
    case hk =>
      intro c hc
      fin_cases hc <;> exact ⟨by decide, by decide, by decide, by decide⟩
    case hds =>
      intro c hc
      have h := formatInt_class rid c hc
      refine ⟨?_, h.2.2.1, h.2.2.2.1⟩
      intro hor
      rcases hor with h2 | h2
      · exact h.2.2.2.2.2.2.1 h2
      · exact h.2.2.2.2.2.2.2.1 h2
  have hvg : valuesGet "$rid".data [("$rid".data, formatInt rid)] = [formatInt rid] := by
    simp [valuesGet]
  have e1 : parseDirectMethodTopic (encodeMethodTopic m rid) =
      dmFromUnescaped (encodeMethodTopic m rid) := by
    unfold parseDirectMethodTopic
    rw [hqu]
  have e2 : dmFromUnescaped (encodeMethodTopic m rid) =
      dmFromParts (dmHead ++ m ++ ['/'], "$rid=".data ++ formatInt rid) := by
    unfold dmFromUnescaped
    rw [hsplit]
  have e3 : dmFromParts (dmHead ++ m ++ ['/'], "$rid=".data ++ formatInt rid) =
      Except.ok (m, rid) := by
    simp only [dmFromParts, htrim, hpre, if_true, hpq, hvg, atoi_formatInt, hdrop]
  exact (e1.trans e2).trans e3

/-! ## Supporting lemmas: cloud-to-device decoding (C8) -/

theorem mem_valuesGet {t : List (List Char × List Char)} {q : List Char × List Char}
    (ht : q ∈ t) : q.2 ∈ valuesGet q.1 t := by
  unfold valuesGet
  apply List.mem_filterMap.mpr
  exact ⟨q, ht, by simp⟩

theorem valuesGet_cons_self (p : List Char × List Char) (t : List (List Char × List Char)) :
    valuesGet p.1 (p :: t) = p.2 :: valuesGet p.1 t := by
  unfold valuesGet
  rw [List.filterMap_cons]
  simp

theorem valuesGet_cons_of_ne {k : List Char} (p : List Char × List Char)
    (t : List (List Char × List Char)) (h : ¬p.1 = k) :
    valuesGet k (p :: t) = valuesGet k t := by
  unfold valuesGet
  rw [List.filterMap_cons]
  simp [h]

theorem nodup_keys_of_counts :
    ∀ pairs : List (List Char × List Char),
      (∀ p ∈ pairs, (valuesGet p.1 pairs).length = 1) →
      (pairs.map Prod.fst).Nodup := by
  intro pairs
  induction pairs with
  | nil => intro _; simp
  | cons p t ih =>
    intro h
    simp only [List.map_cons, List.nodup_cons]
    constructor
    · intro hmem
      rcases List.mem_map.mp hmem with ⟨q, hq, hq1⟩
      have h1 := h p (List.mem_cons_self p t)
      rw [valuesGet_cons_self] at h1
      simp only [List.length_cons, Nat.add_left_eq_self] at h1
      have h2 : valuesGet p.1 t = [] := List.length_eq_zero.mp (by omega)
      have h3 : q.2 ∈ valuesGet q.1 t := mem_valuesGet hq
      rw [hq1, h2] at h3
      simp at h3
    · apply ih
      intro q hq
      have hq2 := h q (List.mem_cons_of_mem p hq)
      by_cases hpq : p.1 = q.1
      · exfalso
        have hv : valuesGet q.1 (p :: t) = p.2 :: valuesGet q.1 t := by
          unfold valuesGet
          rw [List.filterMap_cons]
          simp [hpq]
        rw [hv] at hq2
        have h3 : q.2 ∈ valuesGet q.1 t := mem_valuesGet hq
        have h4 : 0 < (valuesGet q.1 t).length :=
          List.length_pos.mpr (List.ne_nil_of_mem h3)
        simp only [List.length_cons] at hq2
        omega
      · rw [valuesGet_cons_of_ne p t hpq] at hq2
        exact hq2

/-! ## Supporting lemmas: telemetry values (C4) -/

theorem string_data_inj {a b : String} (h : a.data = b.data) : a = b :=
  congrArg String.mk h

theorem valSet_fresh (u : Values) (k : List Char) (vs : List (List Char))
    (h : ∀ p ∈ u, p.1 ≠ k) : valSet u k vs = u ++ [(k, vs)] := by
  unfold valSet
  rw [if_neg]
  · rfl
  intro hany
  rw [List.any_eq_true] at hany
  rcases hany with ⟨p, hp, hpk⟩
  exact h p hp (by simpa using hpk)

theorem foldl_valSet_fresh :
    ∀ (props : List (String × String)) (u : Values),
      (∀ kv ∈ props, ∀ p ∈ u, p.1 ≠ kv.1.data) →
      (props.map Prod.fst).Nodup →
      props.foldl (fun u2 kv => valSet u2 kv.1.data [kv.2.data]) u =
        u ++ props.map (fun kv => (kv.1.data, [kv.2.data])) := by
  intro props
  induction props with
  | nil => intro u _ _; simp
  | cons kv t ih =>
    intro u hf hnd
    simp only [List.foldl_cons]
    rw [valSet_fresh u kv.1.data [kv.2.data]
      (fun p hp => hf kv (List.mem_cons_self kv t) p hp)]
    rw [ih (u ++ [(kv.1.data, [kv.2.data])]) ?hf2 ?hnd2]
    · simp
    case hf2 =>
      intro kv2 hkv2 p hp
      rcases List.mem_append.mp hp with h | h
      · exact hf kv2 (List.mem_cons_of_mem kv hkv2) p h
      · have hp1 : p = (kv.1.data, [kv.2.data]) := by simpa using h
        rw [hp1]
        intro hd
        have hne : kv.1 ≠ kv2.1 := by
          intro he
          have hm : kv2.1 ∈ t.map Prod.fst := List.mem_map_of_mem Prod.fst hkv2
          rw [← he] at hm
          exact (List.nodup_cons.mp hnd).1 hm
        exact hne (string_data_inj hd)
    case hnd2 => exact (List.nodup_cons.mp hnd).2

theorem sysPairs_keys (m : Message) :
    ∀ p ∈ sysPairs m, p.1 = "$.mid".data ∨ p.1 = "$.cid".data ∨ p.1 = "$.uid".data ∨
      p.1 = "$.to".data ∨ p.1 = "$.exp".data := by
  intro p hp
  unfold sysPairs at hp
  simp only [List.mem_append] at hp
  rcases hp with ((((h | h) | h) | h) | h) <;>
    first
      | (split at h <;> simp_all)
      | (cases hE : m.expiryTime <;> rw [hE] at h <;> simp_all)
      | simp_all

theorem sysPairs_fresh (m : Message) (kv : String × String) (hs : kv.1 ∉ sysKeys) :
    ∀ p ∈ sysPairs m, p.1 ≠ kv.1.data := by
  intro p hp hd
  have hk := sysPairs_keys m p hp
  simp only [sysKeys, List.mem_cons, List.not_mem_nil, or_false] at hs
  push_neg at hs
  rcases hk with h | h | h | h | h <;> rw [h] at hd
  · exact hs.1 (string_data_inj hd).symm
  · exact hs.2.1 (string_data_inj hd).symm
  · exact hs.2.2.1 (string_data_inj hd).symm
  · exact hs.2.2.2.1 (string_data_inj hd).symm
  · exact hs.2.2.2.2 (string_data_inj hd).symm

theorem sysValues_eq_sysPairs (m : Message) : sysValues m = sysPairs m := by
  have e1 : ¬("$.mid".data = "$.cid".data) := by decide
  have e2 : ¬("$.mid".data = "$.uid".data) := by decide
  have e3 : ¬("$.cid".data = "$.uid".data) := by decide
  have e4 : ¬("$.mid".data = "$.to".data) := by decide
  have e5 : ¬("$.cid".data = "$.to".data) := by decide
  have e6 : ¬("$.uid".data = "$.to".data) := by decide
  have e7 : ¬("$.mid".data = "$.exp".data) := by decide
  have e8 : ¬("$.cid".data = "$.exp".data) := by decide
  have e9 : ¬("$.uid".data = "$.exp".data) := by decide
  have e10 : ¬("$.to".data = "$.exp".data) := by decide
  unfold sysValues sysPairs
  by_cases h1 : m.messageID = "" <;> by_cases h2 : m.correlationID = "" <;>
    by_cases h3 : m.userID = "" <;> by_cases h4 : m.toAddr = "" <;>
    cases hE : m.expiryTime <;>
    simp [h1, h2, h3, h4, hE, valSet, e1, e2, e3, e4, e5, e6, e7, e8, e9, e10]

/-! ## Claim theorems -/

/-- C1: the claim says a twin reply with status outside 200-299 surfaces
as RequestFailed with that code.  The source tests
`r.code < 200 && r.code > 299`, which no integer satisfies, so the wait
returns the response successfully for every status code — at the
failing input 500 included.  The spec states the evident intent of the
code (its error message is "request failed with %d response code"), so
this is a bug in the code, not in the spec. -/
theorem spec_c1_wait_never_fails :
    requestWait ⟨500, [], 0⟩ = Except.ok ⟨500, [], 0⟩ ∧
    ∀ r : RespMsg, requestWait r = Except.ok r := by
  constructor
  · decide
  · intro r
    unfold requestWait
    have h : ¬(r.code < 200 ∧ r.code > 299) := by omega
    rw [if_neg h]

/-- C2: the claim says `send(m)` publishes at the qos from the `qos`
transport option (default 1).  `Send` does compute that qos, but the
low-level `send` ignores its qos argument and always hands `defaultQoS`
to `Publish`: a message requesting qos 0 is published at qos 1, and
every publish that reaches the MQTT client carries qos 1. -/
theorem spec_c2_qos_ignored :
    sendComputedQoS ⟨strBytes "hello", "", "", "", "", none, [], some 0⟩ = 0 ∧
    transportSend ⟨some true, "d", 0, false, none⟩
        ⟨strBytes "hello", "", "", "", "", none, [], some 0⟩ =
      PubResult.published
        (sendTopic "d" ⟨strBytes "hello", "", "", "", "", none, [], some 0⟩) 1
        (strBytes "hello") ∧
    ∀ (st : TransportState) (m : Message),
      transportSend st m = PubResult.err TErr.notConnected ∨
      transportSend st m = PubResult.published (sendTopic st.did m) 1 m.payload := by
  refine ⟨rfl, rfl, ?_⟩
  intro st m
  cases h : st.conn with
  | none =>
    left
    unfold transportSend sendLow
    rw [h]
  | some b =>
    right
    unfold transportSend sendLow
    rw [h]
    rfl

/-- C3 (counterexample): after a successful connect followed by close,
publish is not rejected with NotConnected — `Close` never clears the
connection handle, so the publish is handed to the MQTT client. -/
theorem spec_c3_counterexample :
    sendLow (closeTransport ⟨some true, "d", 5, false, some []⟩) "x".data 1 [] =
      PubResult.published "x".data 1 [] ∧
    sendLow (closeTransport ⟨some true, "d", 5, false, some []⟩) "x".data 1 [] ≠
      PubResult.err TErr.notConnected := by
  exact ⟨rfl, by decide⟩

/-- C3 (amended): publish fails with NotConnected exactly when the
connection handle is absent — always before the first successful
connect; close preserves the handle's presence, so publish after
connect-then-close is not rejected with NotConnected. -/
theorem spec_c3_amended :
    (∀ (t : List Char) (q : Int) (b : List Nat),
      sendLow initialTransport t q b = PubResult.err TErr.notConnected) ∧
    (∀ st : TransportState, (closeTransport st).conn.isSome = st.conn.isSome) ∧
    (∀ (st : TransportState) (t : List Char) (q : Int) (b : List Nat),
      sendLow st t q b = PubResult.err TErr.notConnected ↔ st.conn = none) := by
  refine ⟨fun t q b => rfl, ?_, ?_⟩
  · intro st
    unfold closeTransport
    split
    · rfl
    · cases h : st.conn <;> simp [h]
  · intro st t q b
    cases h : st.conn <;> simp [sendLow, h]

/-- C4 (counterexample): a user property with an empty value is not
omitted from the telemetry topic: it appears as `k=`, unlike an empty
system property, so the claim's "system and user properties alike" is
false.  `sendTopicClaim` renders the claim's words. -/
theorem spec_c4_counterexample :
    sendTopic "d" ⟨[], "", "", "", "", none, [("a", "")], none⟩ =
      "devices/d/messages/events/a=".data ∧
    sendTopicClaim "d" ⟨[], "", "", "", "", none, [("a", "")], none⟩ =
      "devices/d/messages/events/".data ∧
    sendTopic "d" ⟨[], "", "", "", "", none, [("a", "")], none⟩ ≠
      sendTopicClaim "d" ⟨[], "", "", "", "", none, [("a", "")], none⟩ := by
  exact ⟨by decide, by decide, by decide⟩

/-- C4 (amended): the telemetry topic is the events topic head followed
by the encoded query of the system properties — each omitted when empty
— together with every user property, empty-valued ones included (for
user-property keys distinct from each other and from the reserved
system keys). -/
theorem spec_c4_amended (did : String) (m : Message)
    (hnd : (m.properties.map Prod.fst).Nodup)
    (hsys : ∀ kv ∈ m.properties, kv.1 ∉ sysKeys) :
    sendTopic did m =
      "devices/".data ++ did.data ++ "/messages/events/".data ++
        valuesEncode (sysPairs m ++
          m.properties.map (fun kv => (kv.1.data, [kv.2.data]))) := by
  unfold sendTopic
  have hv : sendValues m =
      sysPairs m ++ m.properties.map (fun kv => (kv.1.data, [kv.2.data])) := by
    unfold sendValues
    rw [sysValues_eq_sysPairs]
    exact foldl_valSet_fresh m.properties (sysPairs m)
      (fun kv hkv p hp => sysPairs_fresh m kv (hsys kv hkv) p hp) hnd
  rw [hv]

/-- C4 (witness): the amended claim at the spec's telemetry scenario:
device `d1`, MessageID `m-1`, one user property `foo=bar`. -/
theorem spec_c4_witness :
    ((([("foo", "bar")] : List (String × String)).map Prod.fst).Nodup) ∧
    (∀ kv ∈ ([("foo", "bar")] : List (String × String)), kv.1 ∉ sysKeys) ∧
    sendTopic "d1" ⟨strBytes "hello", "m-1", "", "", "", none, [("foo", "bar")], none⟩ =
      "devices/".data ++ "d1".data ++ "/messages/events/".data ++
        valuesEncode (sysPairs ⟨strBytes "hello", "m-1", "", "", "", none,
            [("foo", "bar")], none⟩ ++
          ([("foo", "bar")] : List (String × String)).map
            (fun kv => (kv.1.data, [kv.2.data]))) :=
  ⟨by decide, by decide,
    spec_c4_amended "d1" ⟨strBytes "hello", "m-1", "", "", "", none, [("foo", "bar")], none⟩
      (by decide) (by decide)⟩

/-- C5: the SAS token minted for hostname h.example, key dGVzdA==
(base64 of "test"), policy p, timestamp 1600000000 and duration 3600 s
has sr=h.example, se=1600003600, skn=p, and sig equal to the
URL-escaped base64 of HMAC-SHA256 keyed with "test" over
"h.example\n1600003600" (token computed both symbolically and as the
literal string). -/
theorem spec_c5_sas_token :
    Credentials.sas ⟨"h.example", "", "dGVzdA==", "p", some 1600000000⟩ 0 3600 =
      Except.ok (String.mk
        ("SharedAccessSignature sr=h.example&sig=".data ++
         queryEscape (b64Encode (hmacSha256 (strBytes "test")
           (strBytes "h.example\n1600003600"))) ++
         "&se=1600003600&skn=p".data)) ∧
    Credentials.sas ⟨"h.example", "", "dGVzdA==", "p", some 1600000000⟩ 0 3600 =
      Except.ok "SharedAccessSignature sr=h.example&sig=7VlgfG1mUwBWMViefoz9g4ea%2F2NG0E%2BAXi7T7LDh9k4%3D&se=1600003600&skn=p" := by
  exact ⟨by rfl, by rfl⟩

/-- C6: on every exit path of `request` — publish error, reply
delivered, 30-second timeout, cancellation — the registry slot
allocated for the request id is removed before the call returns (and on
the early-exit paths before allocation the id is absent as well). -/
theorem spec_c6_slot_removed (st : TransportState) (subErr pubErr : Option TErr)
    (out : WaitOutcome) (h : nextRid st ∉ registered st) :
    nextRid st ∉ registered (request st subErr pubErr out).2 := by
  unfold request
  cases henb : enableTwinResponses st subErr with
  | panicked => exact h
  | err e => exact h
  | ok st1 =>
    have hrid : st1.rid = st.rid := by
      unfold enableTwinResponses at henb
      split at henb
      · cases henb
        rfl
      · split at henb
        · cases henb
        · split at henb
          · cases henb
          · cases henb
            rfl
    have hfin : ∀ (l : List Nat) (rid2 : Nat), rid2 ∉ regRemove l rid2 := by
      intro l rid2 hmem
      unfold regRemove at hmem
      rcases List.mem_filter.mp hmem with ⟨_, hpred⟩
      simp at hpred
    have key : ∀ X : List Nat, nextRid st ∉ regRemove X (nextRid st1) := by
      intro X
      rw [show nextRid st1 = nextRid st by unfold nextRid; rw [hrid]]
      exact hfin X _
    exact key _

/-- C6 (witness): the slot invariant at a connected transport with a
fresh registry, resolved by timeout. -/
theorem spec_c6_witness :
    (nextRid ⟨some true, "d", 0, false, none⟩ ∉
      registered ⟨some true, "d", 0, false, none⟩) ∧
    nextRid ⟨some true, "d", 0, false, none⟩ ∉
      registered (request ⟨some true, "d", 0, false, none⟩ none none
        WaitOutcome.timeout).2 :=
  ⟨by decide,
    spec_c6_slot_removed ⟨some true, "d", 0, false, none⟩ none none
      WaitOutcome.timeout (by decide)⟩

/-- C7 (counterexample): the round-trip law fails for the empty method
name: the trailing-slash trim of the path erases the separator slash as
well, so the prefix check rejects the topic. -/
theorem spec_c7_counterexample :
    parseDirectMethodTopic (encodeMethodTopic [] 1) =
      Except.error DmErr.malformedTopic := by
  decide

/-- C7 (witness): the round-trip at the spec's direct-method scenario,
method `sum` and request id 7. -/
theorem spec_c7_witness :
    ("sum".data ≠ ([] : List Char)) ∧ (∀ c ∈ "sum".data, methodCharOK c) ∧
    ("sum".data.getLast? ≠ some '/') ∧
    parseDirectMethodTopic (encodeMethodTopic "sum".data 7) =
      Except.ok ("sum".data, 7) :=
  ⟨by decide, by decide, by decide,
    spec_c7_method_roundtrip "sum".data 7 (by decide) (by decide) (by decide)⟩

/-- C8 (counterexample): decoding can fail even when the unescaped
topic does contain a dollar-dot and no key carries two values: a bad
escape inside the query (here `$.a=%25`, whose unescaped form `$.a=%`
fails query parsing) yields an error, where the claim as stated would
require the key-value pairs to be produced. -/
theorem spec_c8_counterexample :
    queryUnescape "$.a=%25".data = some "$.a=%".data ∧
    fromDollarDot "$.a=%".data = some "$.a=%".data ∧
    parseQueryPairs "$.a=%".data = ([], true) ∧
    parseCloudToDeviceTopic "$.a=%25".data = Except.error C2dErr.queryErr := by
  exact ⟨by decide, by decide, by decide, by decide⟩

/-- C8 (amended): decoding fails when unescaping the topic fails; fails
with the malformed-topic error when the unescaped topic has no
dollar-dot; fails when parsing the query from the first dollar-dot
fails; fails when some key carries more than one value; and in every
remaining case produces exactly the parsed key-value pairs, each key
exactly once. -/
theorem spec_c8_amended (s : List Char) :
    (queryUnescape s = none →
      parseCloudToDeviceTopic s = Except.error C2dErr.escapeErr) ∧
    (∀ u, queryUnescape s = some u → fromDollarDot u = none →
      parseCloudToDeviceTopic s = Except.error C2dErr.malformedTopic) ∧
    (∀ u q, queryUnescape s = some u → fromDollarDot u = some q →
      (parseQueryPairs q).2 = true →
      parseCloudToDeviceTopic s = Except.error C2dErr.queryErr) ∧
    (∀ u q, queryUnescape s = some u → fromDollarDot u = some q →
      (parseQueryPairs q).2 = false →
      ((∃ p ∈ (parseQueryPairs q).1,
          (valuesGet p.1 (parseQueryPairs q).1).length ≠ 1) →
        parseCloudToDeviceTopic s = Except.error C2dErr.multiValue) ∧
      ((∀ p ∈ (parseQueryPairs q).1,
          (valuesGet p.1 (parseQueryPairs q).1).length = 1) →
        parseCloudToDeviceTopic s = Except.ok (parseQueryPairs q).1 ∧
        ((parseQueryPairs q).1.map Prod.fst).Nodup)) := by
  refine ⟨?_, ?_, ?_, ?_⟩
  · intro h
    unfold parseCloudToDeviceTopic
    rw [h]
  · intro u hu hd
    unfold parseCloudToDeviceTopic
    rw [hu]
    show c2dFromUnescaped u = _
    unfold c2dFromUnescaped
    rw [hd]
  · intro u q hu hq hflag
    unfold parseCloudToDeviceTopic
    rw [hu]
    show c2dFromUnescaped u = _
    unfold c2dFromUnescaped
    rw [hq]
    show c2dFromQuery q = _
    unfold c2dFromQuery
    rw [if_pos hflag]
  · intro u q hu hq hflag
    have hstage : parseCloudToDeviceTopic s = c2dFromQuery q := by
      unfold parseCloudToDeviceTopic
      rw [hu]
      show c2dFromUnescaped u = _
      unfold c2dFromUnescaped
      rw [hq]
    constructor
    · intro hex
      rcases hex with ⟨p, hp, hlen⟩
      rw [hstage]
      unfold c2dFromQuery
      rw [if_neg (by rw [hflag]; simp)]
      rw [if_neg ?hall]
      case hall =>
        intro hall
        rw [List.all_eq_true] at hall
        have h2 := hall p hp
        simp at h2
        exact hlen h2
    · intro hall
      refine ⟨?_, nodup_keys_of_counts _ hall⟩
      rw [hstage]
      unfold c2dFromQuery
      rw [if_neg (by rw [hflag]; simp)]
      rw [if_pos (List.all_eq_true.mpr
        (fun p hp => decide_eq_true (hall p hp)))]

/-- C8 (witness): the amended claim at the spec's cloud-to-device
scenario topic, whose three properties decode to exactly one value
each. -/
theorem spec_c8_witness :
    queryUnescape "devices/d1/messages/devicebound/%24.to=%2Fdevices%2Fd1%2Fmessages%2FdeviceBound&%24.mid=abc&foo=bar".data =
      some "devices/d1/messages/devicebound/$.to=/devices/d1/messages/deviceBound&$.mid=abc&foo=bar".data ∧
    fromDollarDot "devices/d1/messages/devicebound/$.to=/devices/d1/messages/deviceBound&$.mid=abc&foo=bar".data =
      some "$.to=/devices/d1/messages/deviceBound&$.mid=abc&foo=bar".data ∧
    (parseQueryPairs "$.to=/devices/d1/messages/deviceBound&$.mid=abc&foo=bar".data).2 = false ∧
    parseCloudToDeviceTopic "devices/d1/messages/devicebound/%24.to=%2Fdevices%2Fd1%2Fmessages%2FdeviceBound&%24.mid=abc&foo=bar".data =
      Except.ok (parseQueryPairs "$.to=/devices/d1/messages/deviceBound&$.mid=abc&foo=bar".data).1 ∧
    ((parseQueryPairs "$.to=/devices/d1/messages/deviceBound&$.mid=abc&foo=bar".data).1.map Prod.fst).Nodup :=
  ⟨by decide, by decide, by decide,
    ((spec_c8_amended "devices/d1/messages/devicebound/%24.to=%2Fdevices%2Fd1%2Fmessages%2FdeviceBound&%24.mid=abc&foo=bar".data).2.2.2
      "devices/d1/messages/devicebound/$.to=/devices/d1/messages/deviceBound&$.mid=abc&foo=bar".data
      "$.to=/devices/d1/messages/deviceBound&$.mid=abc&foo=bar".data
      (by decide) (by decide) (by decide)).2 (by decide) |>.1,
    ((spec_c8_amended "devices/d1/messages/devicebound/%24.to=%2Fdevices%2Fd1%2Fmessages%2FdeviceBound&%24.mid=abc&foo=bar".data).2.2.2
      "devices/d1/messages/devicebound/$.to=/devices/d1/messages/deviceBound&$.mid=abc&foo=bar".data
      "$.to=/devices/d1/messages/deviceBound&$.mid=abc&foo=bar".data
      (by decide) (by decide) (by decide)).2 (by decide) |>.2⟩

/-- C9: `ParseConnectionString` is not total — a chunk equal to a
recognized key name with no equals sign (here the bare `HostName` in a
three-chunk string) makes the parser index past the end of the
one-element split and panic, returning neither credentials nor an
error. -/
theorem spec_c9_parse_panics :
    parseConnectionString "HostName;DeviceId=d;SharedAccessKey=k" = none := by
  decide

/-- C10: before a successful connect the connection handle is nil:
`SubscribeEvents`, `SubscribeTwinUpdates`, `RegisterDirectMethods` and
both twin operations dereference it and panic, while only the publish
path checks the handle and fails with NotConnected. -/
theorem spec_c10_nil_deref :
    (∀ e : Option TErr, subscribeEvents initialTransport e = ROut.panicked) ∧
    (∀ e : Option TErr, subscribeTwinUpdates initialTransport e = ROut.panicked) ∧
    (∀ e : Option TErr, registerDirectMethods initialTransport e = ROut.panicked) ∧
    (∀ (se pe : Option TErr) (out : WaitOutcome),
      (retrieveTwinProperties initialTransport se pe out).1 = ROut.panicked) ∧
    (∀ (b : List Nat) (se pe : Option TErr) (out : WaitOutcome),
      (updateTwinProperties initialTransport b se pe out).1 = ROut.panicked) ∧
    (∀ (t : List Char) (q : Int) (b : List Nat),
      sendLow initialTransport t q b = PubResult.err TErr.notConnected) :=
  ⟨fun _ => rfl, fun _ => rfl, fun _ => rfl, fun _ _ _ => rfl,
    fun _ _ _ _ => rfl, fun _ _ _ => rfl⟩

end IotHub
